import Mathlib

/-!
Verification of the process-identity core of `src/syscall/process.c`:
the shared process table and pid allocator, the bootstrap path of
`process_init`, the child tracker, the wait/reap engine `process_wait`,
the `/proc` pid iteration, and the identity accessors.

The C code is shallowly embedded: the shared table is a record holding
the `last_allocated_process` cursor and the slot array (a total function
on `Nat`; the C array has `MAX_PROCESS_COUNT` slots and every access the
theorems rely on is proved in range), loops become fuel-based structural
recursions mirroring the loop bounds, and the per-process local state
(`struct process_data`) becomes an explicit state record threaded through
`process_wait` and `process_add_child`.
-/

def MAX_PROCESS_COUNT : Nat := 4096

def MAX_CHILD_COUNT : Nat := 1024

/-- Slot status: the C code uses `PROCESS_NOTEXIST` (0) and
`PROCESS_RUNNING` (1). -/
inductive ProcStatus where
  | NotExist
  | Running
deriving DecidableEq

/-- One slot of the shared process table (`struct process`).
`win_pid` is the native (Windows) process id; `sigwrite` the handle to the
signal-delivery pipe (`none` models `NULL`). -/
structure Process where
  status : ProcStatus
  win_pid : Nat
  pgid : Nat
  ppid : Nat
  sid : Nat
  sigwrite : Option Nat
deriving DecidableEq

/-- `struct process_shared_data`: the cursor plus the slot array
(slot 0 is never used). -/
structure SharedData where
  last_allocated_process : Nat
  processes : Nat → Process

/-- A slot whose fields are all zero / `NULL`, as in the freshly mapped
(zero-initialized) shared memory region. -/
def emptyProc : Process :=
  { status := ProcStatus.NotExist, win_pid := 0, pgid := 0, ppid := 0,
    sid := 0, sigwrite := none }

/-- The shared table as first mapped: `last_allocated_process = 0` and every
slot zeroed (status `NotExist`). -/
def initialShared : SharedData :=
  { last_allocated_process := 0, processes := fun _ => emptyProc }

/-- Overwrite one slot of the table. -/
def setSlot (sh : SharedData) (i : Nat) (p : Process) : SharedData :=
  { sh with processes := Function.update sh.processes i p }

/-- The `i`-th candidate slot probed by `process_alloc`'s loop:
`cur = last_allocated_process + i; if (cur >= MAX_PROCESS_COUNT)
cur -= MAX_PROCESS_COUNT - 1;`. -/
def candidate (last i : Nat) : Nat :=
  if last + i ≥ MAX_PROCESS_COUNT then last + i - (MAX_PROCESS_COUNT - 1)
  else last + i

/-- The scan loop of `process_alloc`: probe candidates for
`i = start, start+1, ...` while `i < MAX_PROCESS_COUNT`, returning the first
candidate slot whose status is `NotExist`.  The fuel argument only bounds the
structural recursion; `MAX_PROCESS_COUNT` units are enough for the whole loop
starting at `i = 1`. -/
def allocFromFuel (sh : SharedData) : Nat → Nat → Option Nat
  | 0, _ => none
  | fuel + 1, i =>
    if i < MAX_PROCESS_COUNT then
      if (sh.processes (candidate sh.last_allocated_process i)).status =
          ProcStatus.NotExist then
        some (candidate sh.last_allocated_process i)
      else
        allocFromFuel sh fuel (i + 1)
    else
      none

/-- `process_alloc`: scan the table starting after `last_allocated_process`,
return the first free slot and set the cursor to it.  `none` models the fatal
"Process table full" path (`log_error` + `__debugbreak`). -/
def process_alloc (sh : SharedData) : Option (Nat × SharedData) :=
  match allocFromFuel sh MAX_PROCESS_COUNT 1 with
  | some cur => some (cur, { sh with last_allocated_process := cur })
  | none => none

theorem candidate_pos (last i : Nat) (hi : 1 ≤ i) : 1 ≤ candidate last i := by
  unfold candidate
  split
  · omega
  · omega

theorem candidate_lt (last i : Nat) (hlast : last < MAX_PROCESS_COUNT)
    (hi : i < MAX_PROCESS_COUNT) : candidate last i < MAX_PROCESS_COUNT := by
  unfold candidate
  unfold MAX_PROCESS_COUNT at *
  split
  · omega
  · omega

theorem candidate_ne_zero (last i : Nat) (hi : 1 ≤ i) : candidate last i ≠ 0 := by
  have h := candidate_pos last i hi
  omega

/-- Every slot in `1 .. MAX_PROCESS_COUNT - 1` is some candidate: the scan
covers the whole table (wrapping past the end back to slot 1). -/
theorem candidate_covers (last s : Nat) (hlast : last < MAX_PROCESS_COUNT)
    (hs1 : 1 ≤ s) (hs : s < MAX_PROCESS_COUNT) :
    ∃ i, 1 ≤ i ∧ i < MAX_PROCESS_COUNT ∧ candidate last i = s := by
  by_cases h : last < s
  · refine ⟨s - last, by omega, by omega, ?_⟩
    unfold candidate
    split
    · omega
    · omega
  · refine ⟨s + (MAX_PROCESS_COUNT - 1) - last, ?_, ?_, ?_⟩
    · unfold MAX_PROCESS_COUNT at *
      omega
    · unfold MAX_PROCESS_COUNT at *
      omega
    · unfold candidate
      unfold MAX_PROCESS_COUNT at *
      split
      · omega
      · omega

/-- Soundness of the scan loop: a returned slot is the first free candidate at
or after the starting probe index. -/
theorem allocFromFuel_sound (sh : SharedData) :
    ∀ fuel i cur, allocFromFuel sh fuel i = some cur →
      ∃ k, i ≤ k ∧ k < MAX_PROCESS_COUNT ∧
        cur = candidate sh.last_allocated_process k ∧
        (sh.processes cur).status = ProcStatus.NotExist ∧
        ∀ j, i ≤ j → j < k →
          (sh.processes (candidate sh.last_allocated_process j)).status ≠
            ProcStatus.NotExist := by
  intro fuel
  induction fuel with
  | zero => intro i cur h; simp [allocFromFuel] at h
  | succ fuel ih =>
    intro i cur h
    unfold allocFromFuel at h
    by_cases hi : i < MAX_PROCESS_COUNT
    · simp only [hi, if_true] at h
      by_cases hfree :
          (sh.processes (candidate sh.last_allocated_process i)).status =
            ProcStatus.NotExist
      · simp only [hfree, if_true, Option.some_inj] at h
        exact ⟨i, Nat.le_refl i, hi, h.symm, h ▸ hfree, fun j h1 h2 => by omega⟩
      · simp only [hfree, if_false] at h
        obtain ⟨k, hk1, hk2, hk3, hk4, hk5⟩ := ih (i + 1) cur h
        refine ⟨k, by omega, hk2, hk3, hk4, fun j hj1 hj2 => ?_⟩
        by_cases hji : j = i
        · exact hji ▸ hfree
        · exact hk5 j (by omega) hj2
    · simp [hi] at h

/-- Completeness of the scan loop: with enough fuel, a free candidate at or
after the starting index is found. -/
theorem allocFromFuel_complete (sh : SharedData) :
    ∀ fuel i, MAX_PROCESS_COUNT ≤ fuel + i →
      (∃ k, i ≤ k ∧ k < MAX_PROCESS_COUNT ∧
        (sh.processes (candidate sh.last_allocated_process k)).status =
          ProcStatus.NotExist) →
      (allocFromFuel sh fuel i).isSome = true := by
  intro fuel
  induction fuel with
  | zero =>
    intro i hfuel ⟨k, hk1, hk2, _⟩
    omega
  | succ fuel ih =>
    intro i hfuel ⟨k, hk1, hk2, hk3⟩
    unfold allocFromFuel
    have hi : i < MAX_PROCESS_COUNT := by omega
    simp only [hi, if_true]
    by_cases hfree :
        (sh.processes (candidate sh.last_allocated_process i)).status =
          ProcStatus.NotExist
    · simp [hfree]
    · simp only [hfree, if_false]
      refine ih (i + 1) (by omega) ⟨k, ?_, hk2, hk3⟩
      by_cases hki : k = i
      · exact absurd (hki ▸ hk3) hfree
      · omega

/-- Claim C1: whenever some slot in `1 .. MAX_PROCESS_COUNT - 1` is free,
`process_alloc` succeeds and returns the first free slot met when probing the
`MAX_PROCESS_COUNT - 1` candidates that start at `last_allocated_process + 1`
and wrap past the end back to slot 1; it never examines or returns slot 0,
it sets `last_allocated_process` to the returned slot, the returned slot's
status was `NotExist`, and therefore the returned pid differs from the pid of
every `Running` slot. -/
theorem process_alloc_spec (sh : SharedData)
    (hlast : sh.last_allocated_process < MAX_PROCESS_COUNT)
    (hfree : ∃ s, 1 ≤ s ∧ s < MAX_PROCESS_COUNT ∧
      (sh.processes s).status = ProcStatus.NotExist) :
    ∃ cur, process_alloc sh =
        some (cur, { sh with last_allocated_process := cur }) ∧
      1 ≤ cur ∧ cur < MAX_PROCESS_COUNT ∧ cur ≠ 0 ∧
      (sh.processes cur).status = ProcStatus.NotExist ∧
      (∃ i, 1 ≤ i ∧ i < MAX_PROCESS_COUNT ∧
        cur = candidate sh.last_allocated_process i ∧
        ∀ j, 1 ≤ j → j < i →
          (sh.processes (candidate sh.last_allocated_process j)).status ≠
            ProcStatus.NotExist) ∧
      (∀ j, 1 ≤ j → j < MAX_PROCESS_COUNT →
        candidate sh.last_allocated_process j ≠ 0) ∧
      (∀ k, (sh.processes k).status = ProcStatus.Running → k ≠ cur) := by
  obtain ⟨s, hs1, hs2, hs3⟩ := hfree
  obtain ⟨i0, hi01, hi02, hi03⟩ :=
    candidate_covers sh.last_allocated_process s hlast hs1 hs2
  have hsome : (allocFromFuel sh MAX_PROCESS_COUNT 1).isSome = true :=
    allocFromFuel_complete sh MAX_PROCESS_COUNT 1 (by omega)
      ⟨i0, hi01, hi02, by rw [hi03]; exact hs3⟩
  obtain ⟨cur, hcur⟩ := Option.isSome_iff_exists.mp hsome
  obtain ⟨k, hk1, hk2, hk3, hk4, hk5⟩ := allocFromFuel_sound sh _ _ _ hcur
  refine ⟨cur, ?_, ?_, ?_, ?_, hk4, ⟨k, hk1, hk2, hk3, hk5⟩,
    fun j hj1 _ => candidate_ne_zero _ j hj1, ?_⟩
  · unfold process_alloc
    rw [hcur]
  · exact hk3 ▸ candidate_pos _ k hk1
  · exact hk3 ▸ candidate_lt _ k hlast hk2
  · have := hk3 ▸ candidate_pos _ k hk1
    omega
  · intro p hp hpc
    rw [hpc] at hp
    rw [hk4] at hp
    exact ProcStatus.noConfusion hp

/-- Witness for C1: on the freshly mapped table every slot is free, and the
allocator hands out a nonzero free slot and moves the cursor to it. -/
theorem process_alloc_spec_witness :
    ∃ cur, process_alloc initialShared =
        some (cur, { initialShared with last_allocated_process := cur }) ∧
      1 ≤ cur ∧ cur < MAX_PROCESS_COUNT ∧ cur ≠ 0 ∧
      (initialShared.processes cur).status = ProcStatus.NotExist ∧
      (∃ i, 1 ≤ i ∧ i < MAX_PROCESS_COUNT ∧
        cur = candidate initialShared.last_allocated_process i ∧
        ∀ j, 1 ≤ j → j < i →
          (initialShared.processes
            (candidate initialShared.last_allocated_process j)).status ≠
              ProcStatus.NotExist) ∧
      (∀ j, 1 ≤ j → j < MAX_PROCESS_COUNT →
        candidate initialShared.last_allocated_process j ≠ 0) ∧
      (∀ k, (initialShared.processes k).status = ProcStatus.Running →
        k ≠ cur) :=
  process_alloc_spec initialShared (by decide) ⟨1, by decide, by decide, rfl⟩

/-- The root (INIT) identity that `process_init` synthesizes in slot 1:
status `Running`, no native process (`win_pid = 0`), `ppid = 0`, `pgid = 1`,
`sid = 1`, no signal channel. -/
def initProc : Process :=
  { status := ProcStatus.Running, win_pid := 0, pgid := 1, ppid := 0,
    sid := 1, sigwrite := none }

/-- The slot contents `process_init` writes for the calling process itself:
`ppid = 1`, `pgid` and `sid` equal to its own pid. -/
def selfProc (winPid pid : Nat) (sigwrite : Option Nat) : Process :=
  { status := ProcStatus.Running, win_pid := winPid, pgid := pid, ppid := 1,
    sid := pid, sigwrite := sigwrite }

/-- The shared-table effect of `process_init`: allocate a slot; if that slot
is 1 the INIT process does not exist yet, so synthesize it in slot 1 and
allocate again; then fill the caller's slot.  `winPid` models
`GetCurrentProcessId()` and `sigwrite` models
`signal_get_process_sigwrite()`.  `none` models the fatal table-full path. -/
def process_init (sh : SharedData) (winPid : Nat) (sigwrite : Option Nat) :
    Option (Nat × SharedData) :=
  match process_alloc sh with
  | none => none
  | some (pid, s1) =>
    if pid = 1 then
      match process_alloc (setSlot s1 1 initProc) with
      | none => none
      | some (pid2, s3) =>
        some (pid2, setSlot s3 pid2 (selfProc winPid pid2 sigwrite))
    else
      some (pid, setSlot s1 pid (selfProc winPid pid sigwrite))

/-- Claim C2: run against a table whose slots are all `NotExist` with the
cursor at its initial value 0, `process_init` synthesizes the root identity
in slot 1 (`Running`, `ppid = 0`, `pgid = 1`, `sid = 1`, no native handle, no
signal channel) and hands the caller pid 2 (≠ 1), whose slot has `ppid = 1`
and `pgid = sid =` its own pid. -/
theorem process_init_bootstrap (sh : SharedData) (winPid : Nat)
    (sigwrite : Option Nat) (hlast : sh.last_allocated_process = 0)
    (hall : ∀ i, sh.processes i = emptyProc) :
    ∃ sh2, process_init sh winPid sigwrite = some (2, sh2) ∧
      (2 : Nat) ≠ 1 ∧
      sh2.processes 1 = initProc ∧
      (sh2.processes 1).ppid = 0 ∧ (sh2.processes 1).pgid = 1 ∧
      (sh2.processes 1).sid = 1 ∧
      (sh2.processes 1).status = ProcStatus.Running ∧
      (sh2.processes 1).win_pid = 0 ∧ (sh2.processes 1).sigwrite = none ∧
      (sh2.processes 2).ppid = 1 ∧ (sh2.processes 2).pgid = 2 ∧
      (sh2.processes 2).sid = 2 ∧
      (sh2.processes 2).status = ProcStatus.Running := by
  have hsh : sh = initialShared := by
    cases sh with
    | mk last procs =>
      have h1 : last = 0 := hlast
      have h2 : procs = fun _ => emptyProc := funext hall
      rw [h1, h2]
      rfl
  subst hsh
  refine ⟨setSlot
      (setSlot { initialShared with last_allocated_process := 2 } 1 initProc)
      2 (selfProc winPid 2 sigwrite), ?_, by decide, ?_, ?_, ?_, ?_, ?_, ?_,
      ?_, ?_, ?_, ?_, ?_⟩
  · rfl
  · simp [setSlot, Function.update, initProc]
  · simp [setSlot, Function.update, initProc]
  · simp [setSlot, Function.update, initProc]
  · simp [setSlot, Function.update, initProc]
  · simp [setSlot, Function.update, initProc]
  · simp [setSlot, Function.update, initProc]
  · simp [setSlot, Function.update, initProc]
  · simp [setSlot, Function.update, selfProc]
  · simp [setSlot, Function.update, selfProc]
  · simp [setSlot, Function.update, selfProc]
  · simp [setSlot, Function.update, selfProc]

/-- Witness for C2: the bootstrap theorem applied to the freshly mapped
table, with native pid 77 and signal channel handle 9 for the caller. -/
theorem process_init_bootstrap_witness :
    ∃ sh2, process_init initialShared 77 (some 9) = some (2, sh2) ∧
      (2 : Nat) ≠ 1 ∧
      sh2.processes 1 = initProc ∧
      (sh2.processes 1).ppid = 0 ∧ (sh2.processes 1).pgid = 1 ∧
      (sh2.processes 1).sid = 1 ∧
      (sh2.processes 1).status = ProcStatus.Running ∧
      (sh2.processes 1).win_pid = 0 ∧ (sh2.processes 1).sigwrite = none ∧
      (sh2.processes 2).ppid = 1 ∧ (sh2.processes 2).pgid = 2 ∧
      (sh2.processes 2).sid = 2 ∧
      (sh2.processes 2).status = ProcStatus.Running :=
  process_init_bootstrap initialShared 77 (some 9) rfl (fun _ => rfl)

/-- `struct child_process` as used here: the allocated pid, the native
process handle (`hProcess`) and the termination flag set by the signal
subsystem. -/
structure ChildProcess where
  pid : Nat
  hProcess : Nat
  terminated : Bool
deriving DecidableEq

/-- The per-process local state (`struct process_data`) together with the
shared table it can reach through `process_shared`.

Modelled from the spec: the `slist` intrusive list library is not under
`src/`; the spec states that the active child list is iterated in insertion
order (the order in which `process_add_child` registered the children), so
both lists are modelled as Lean lists with iteration from the head and
insertion at the tail.  `waitSemaphore` models the termination-notification
counting semaphore owned by the (external) signal subsystem
(`signal_get_process_wait_semaphore()`): one unit per terminated child,
consumed by `WaitForSingleObject` / a satisfied `signal_wait` on it. -/
structure WaitState where
  shared : SharedData
  child_list : List ChildProcess
  child_freelist : List ChildProcess
  child_count : Int
  waitSemaphore : Nat

/-- Modelled from the spec: `W_EXITCODE` lives in `common/wait.h`, which is
not under `src/`; the spec describes the stored value as "a POSIX-style
encoded status (normal exit, code in low byte position per the documented
encoding)", i.e. the signal field above and the exit code in the low byte. -/
def W_EXITCODE (ret sig : Nat) : Nat := sig * 256 + ret % 256

/-- One pass over an intrusive list as the C `slist_iterate_safe` loops do:
find the first element satisfying `p` and remove it, returning the element
and the remaining list; `none` when no element matches. -/
def extractFirst (p : ChildProcess → Bool) :
    List ChildProcess → Option (ChildProcess × List ChildProcess)
  | [] => none
  | c :: rest =>
    if p c then some (c, rest)
    else
      match extractFirst p rest with
      | some (x, rest2) => some (x, c :: rest2)
      | none => none

/-- Result of `process_wait`: the returned pid together with the encoded
status that is stored through the `status` pointer when it is non-`NULL`,
or one of the error returns `-ECHILD`, `-EINTR`, `-EINVAL`. -/
inductive WaitResult where
  | ok (pid : Nat) (encodedStatus : Nat)
  | echild
  | eintr
  | einval
deriving DecidableEq

/-- Shared tail of both reap branches of `process_wait`: read the native
exit code of the reaped child's handle (`GetExitCodeProcess`, modelled by
the oracle `exitCodeOf`), close the handle, and return the reaped pid with
the encoded status `W_EXITCODE(exitCode, 0)`. -/
def finalizeReap (exitCodeOf : Nat → Nat) (proc : ChildProcess)
    (st : WaitState) : WaitResult × WaitState :=
  (WaitResult.ok proc.pid (W_EXITCODE (exitCodeOf proc.hProcess) 0), st)

/-- `process_wait(pid, status, options, rusage)`.

`exitCodeOf` is the `GetExitCodeProcess` oracle (native handle to exit
code).  `interrupted` is the outcome oracle for the one signal-interruptible
blocking `signal_wait` the call may perform (`true` models
`WAIT_INTERRUPTED`, i.e. an incoming signal cut the wait short).  `wnohang`
is the `WNOHANG` bit of `options`; the `WUNTRACED`/`WCONTINUED` bits and a
non-`NULL` `rusage` are only logged by the C code and do not affect the
state machine, so they are not parameters.

The specific-pid branch waits on the child's process handle (consuming no
semaphore unit), then consumes one unit via `WaitForSingleObject` on the
wait semaphore; the any-mode blocking branch consumes one unit through
`signal_wait` on the semaphore itself, while the any-mode `WNOHANG` branch
consumes its unit inside the selection loop. -/
def process_wait (exitCodeOf : Nat → Nat) (interrupted : Bool)
    (st : WaitState) (pid : Int) (wnohang : Bool) :
    WaitResult × WaitState :=
  if 0 < pid then
    match extractFirst (fun p => p.pid == pid.toNat) st.child_list with
    | none => (WaitResult.echild, st)
    | some (proc, rest) =>
      if wnohang && !proc.terminated then (WaitResult.echild, st)
      else if !wnohang && interrupted then (WaitResult.eintr, st)
      else
        finalizeReap exitCodeOf proc
          { st with
            waitSemaphore := st.waitSemaphore - 1,
            child_list := rest,
            child_freelist := st.child_freelist ++ [proc],
            child_count := st.child_count - 1 }
  else if pid = -1 then
    if st.child_count = 0 then (WaitResult.echild, st)
    else if !wnohang && interrupted then (WaitResult.eintr, st)
    else
      let sem1 := if !wnohang then st.waitSemaphore - 1 else st.waitSemaphore
      match extractFirst (fun p => p.terminated) st.child_list with
      | none => (WaitResult.echild, { st with waitSemaphore := sem1 })
      | some (proc, rest) =>
        finalizeReap exitCodeOf proc
          { st with
            waitSemaphore := if wnohang then sem1 - 1 else sem1,
            child_list := rest,
            child_freelist := st.child_freelist ++ [proc],
            child_count := st.child_count - 1 }
  else
    (WaitResult.einval, st)

/-- `process_add_child(win_pid, handle)`: allocate a table slot for the
child (inheriting `pgid`/`sid` from the caller's slot `selfPid`, with
`ppid = selfPid`), move a record from the free list to the tail of the
active child list, fill it in with `terminated = false`, and increment
`child_count`.  `none` models the two fatal paths (child pool exhausted,
process table full).  `signal_add_process` only registers the record with
the external signal subsystem and changes none of this state. -/
def process_add_child (st : WaitState) (selfPid winPid handle : Nat) :
    Option (Nat × WaitState) :=
  match st.child_freelist with
  | [] => none
  | _ :: freerest =>
    match process_alloc st.shared with
    | none => none
    | some (pid, s1) =>
      let sh2 := setSlot s1 pid
        { status := ProcStatus.Running, win_pid := winPid,
          pgid := (s1.processes selfPid).pgid, ppid := selfPid,
          sid := (s1.processes selfPid).sid, sigwrite := none }
      some (pid,
        { st with
          shared := sh2,
          child_list := st.child_list ++
            [{ pid := pid, hProcess := handle, terminated := false }],
          child_freelist := freerest,
          child_count := st.child_count + 1 })

theorem extractFirst_eq_none (p : ChildProcess → Bool)
    (l : List ChildProcess) (h : ∀ c ∈ l, p c = false) :
    extractFirst p l = none := by
  induction l with
  | nil => rfl
  | cons c rest ih =>
    unfold extractFirst
    have hc : p c = false := h c (List.mem_cons_self c rest)
    simp only [hc, Bool.false_eq_true, if_false]
    rw [ih (fun x hx => h x (List.mem_cons_of_mem c hx))]

theorem extractFirst_first (p : ChildProcess → Bool) :
    ∀ l : List ChildProcess, (∃ c ∈ l, p c = true) →
      ∃ pre c post, l = pre ++ c :: post ∧ (∀ x ∈ pre, p x = false) ∧
        p c = true ∧ extractFirst p l = some (c, pre ++ post) := by
  intro l
  induction l with
  | nil => intro ⟨c, hc, _⟩; exact absurd hc (List.not_mem_nil c)
  | cons a rest ih =>
    intro ⟨c, hc, hpc⟩
    by_cases ha : p a = true
    · refine ⟨[], a, rest, rfl, fun x hx => absurd hx (List.not_mem_nil x),
        ha, ?_⟩
      unfold extractFirst
      simp [ha]
    · have hcr : c ∈ rest := by
        rcases List.mem_cons.mp hc with h1 | h1
        · exact absurd (h1 ▸ hpc) ha
        · exact h1
      obtain ⟨pre, c2, post, hl, hpre, hpc2, hext⟩ := ih ⟨c, hcr, hpc⟩
      refine ⟨a :: pre, c2, post, by simp [hl], ?_, hpc2, ?_⟩
      · intro x hx
        rcases List.mem_cons.mp hx with h1 | h1
        · rw [h1]
          exact Bool.eq_false_iff.mpr ha
        · exact hpre x h1
      · unfold extractFirst
        simp only [ha, Bool.false_eq_true, if_false]
        rw [hext]
        simp

theorem extractFirst_mem (p : ChildProcess → Bool) (l : List ChildProcess) :
    ∀ (rest : List ChildProcess) (c : ChildProcess),
      extractFirst p l = some (c, rest) → c ∈ l := by
  induction l with
  | nil => intro rest c h; exact absurd h (by simp [extractFirst])
  | cons a tl ih =>
    intro rest c h
    unfold extractFirst at h
    by_cases ha : p a = true
    · simp only [ha, if_true, Option.some_inj, Prod.mk.injEq] at h
      rw [← h.1]
      exact List.mem_cons_self a tl
    · rw [Bool.not_eq_true] at ha
      simp only [ha, Bool.false_eq_true, if_false] at h
      rcases htl : extractFirst p tl with _ | ⟨x, rest2⟩
      · rw [htl] at h
        exact absurd h (by simp)
      · rw [htl] at h
        simp only [Option.some_inj, Prod.mk.injEq] at h
        refine List.mem_cons_of_mem a ?_
        rw [← h.1]
        exact ih rest2 x htl

/-- A concrete local state tracking one unterminated child with pid 5. -/
def oneChildState : WaitState :=
  { shared := initialShared,
    child_list := [{ pid := 5, hProcess := 11, terminated := false }],
    child_freelist := [], child_count := 1, waitSemaphore := 0 }

/-- A concrete local state tracking one terminated child with pid 5 (one
termination notification pending). -/
def oneDeadChildState : WaitState :=
  { shared := initialShared,
    child_list := [{ pid := 5, hProcess := 11, terminated := true }],
    child_freelist := [], child_count := 1, waitSemaphore := 1 }

/-- A concrete local state tracking no children. -/
def noChildState : WaitState :=
  { shared := initialShared, child_list := [], child_freelist := [],
    child_count := 0, waitSemaphore := 0 }

/-- Claim C3: a blocking wait (specific pid found among the children, or
`pid = -1` with a nonzero child count) whose signal-interruptible wait is
interrupted returns `-EINTR` and leaves the whole per-process wait state —
child list, free list, `child_count`, every `terminated` flag, and the
termination-notification semaphore — exactly as it was, so the child stays
reapable. -/
theorem process_wait_interrupted (exitCodeOf : Nat → Nat) (st : WaitState)
    (pid : Int)
    (hreach :
      (0 < pid ∧
        (extractFirst (fun p => p.pid == pid.toNat) st.child_list).isSome =
          true) ∨
      (pid = -1 ∧ st.child_count ≠ 0)) :
    process_wait exitCodeOf true st pid false = (WaitResult.eintr, st) := by
  rcases hreach with ⟨hpos, hsome⟩ | ⟨hneg, hcc⟩
  · obtain ⟨⟨proc, rest⟩, hext⟩ := Option.isSome_iff_exists.mp hsome
    unfold process_wait
    simp [hpos, hext]
  · subst hneg
    unfold process_wait
    simp [hcc]

/-- Witness for C3: one tracked, unterminated child with pid 5; the
interrupted blocking wait on it returns `-EINTR` with the state intact. -/
theorem process_wait_interrupted_witness :
    process_wait (fun _ => 0) true oneChildState 5 false =
      (WaitResult.eintr, oneChildState) :=
  process_wait_interrupted (fun _ => 0) oneChildState 5
    (Or.inl ⟨by decide, by rfl⟩)

/-- Claim C4: a wait for a specific `pid > 0` returns `-ECHILD` with the
state untouched when either no active child record carries that pid, or the
record is found but `WNOHANG` is set and the child has not terminated. -/
theorem process_wait_specific_echild (exitCodeOf : Nat → Nat)
    (interrupted wnohang : Bool) (st : WaitState) (pid : Int)
    (hpos : 0 < pid)
    (h : (∀ c ∈ st.child_list, c.pid ≠ pid.toNat) ∨
      (wnohang = true ∧ ∃ c rest,
        extractFirst (fun p => p.pid == pid.toNat) st.child_list =
          some (c, rest) ∧ c.terminated = false)) :
    process_wait exitCodeOf interrupted st pid wnohang =
      (WaitResult.echild, st) := by
  rcases h with hnone | ⟨hwno, c, rest, hext, hterm⟩
  · have : extractFirst (fun p => p.pid == pid.toNat) st.child_list = none :=
      extractFirst_eq_none _ _ (fun c hc => by
        simp only [beq_eq_false_iff_ne, ne_eq]
        exact hnone c hc)
    unfold process_wait
    simp [hpos, this]
  · unfold process_wait
    simp [hpos, hext, hwno, hterm]

/-- Witness for C4: pid 999 is not among the tracked children (which hold
only pid 5), so the specific-pid wait returns `-ECHILD` unchanged. -/
theorem process_wait_specific_echild_witness :
    process_wait (fun _ => 0) false oneChildState 999 false =
      (WaitResult.echild, oneChildState) :=
  process_wait_specific_echild (fun _ => 0) false false oneChildState 999
    (by decide) (Or.inl (by decide))

/-- Claim C5: a wait with `pid = -1` by a process whose `child_count` is
zero returns `-ECHILD` immediately — before any blocking wait and for either
value of `WNOHANG` — with the state unchanged. -/
theorem process_wait_any_nochild (exitCodeOf : Nat → Nat)
    (interrupted wnohang : Bool) (st : WaitState)
    (hcc : st.child_count = 0) :
    process_wait exitCodeOf interrupted st (-1) wnohang =
      (WaitResult.echild, st) := by
  unfold process_wait
  simp [hcc]

/-- Witness for C5: zero children, blocking mode; `-ECHILD` at once. -/
theorem process_wait_any_nochild_witness :
    process_wait (fun _ => 0) false noChildState (-1) false =
      (WaitResult.echild, noChildState) :=
  process_wait_any_nochild (fun _ => 0) false false noChildState rfl

/-- Claim C8: a wait whose pid argument is 0 or less than -1 returns
`-EINVAL` without touching the child list, the free list, `child_count`,
the semaphore, or the shared table. -/
theorem process_wait_einval (exitCodeOf : Nat → Nat)
    (interrupted wnohang : Bool) (st : WaitState) (pid : Int)
    (h : pid = 0 ∨ pid < -1) :
    process_wait exitCodeOf interrupted st pid wnohang =
      (WaitResult.einval, st) := by
  have h1 : ¬0 < pid := by omega
  have h2 : pid ≠ -1 := by omega
  unfold process_wait
  simp [h1, h2]

/-- Witness for C8: `wait(-2)` returns `-EINVAL` with the state intact. -/
theorem process_wait_einval_witness :
    process_wait (fun _ => 0) false oneDeadChildState (-2) false =
      (WaitResult.einval, oneDeadChildState) :=
  process_wait_einval (fun _ => 0) false false oneDeadChildState (-2)
    (Or.inr (by decide))

/-- Claim C6: an any-mode wait (`pid = -1`) that reaches the selection step
(nonzero child count, and no interruption when blocking) with at least one
terminated active child reaps exactly the first terminated record in active
child list order, removing it from the list; and since `process_add_child`
always appends the new record at the tail of the active child list, that
order is insertion order — the order in which the children were registered —
a deterministic tie-break among simultaneously-terminated children. -/
theorem process_wait_any_selects_first_terminated (exitCodeOf : Nat → Nat)
    (interrupted wnohang : Bool) (st : WaitState)
    (hcc : st.child_count ≠ 0)
    (hnoint : wnohang = true ∨ interrupted = false)
    (hterm : ∃ c ∈ st.child_list, c.terminated = true) :
    (∃ pre c post, st.child_list = pre ++ c :: post ∧
      (∀ x ∈ pre, x.terminated = false) ∧ c.terminated = true ∧
      (process_wait exitCodeOf interrupted st (-1) wnohang).1 =
        WaitResult.ok c.pid (W_EXITCODE (exitCodeOf c.hProcess) 0) ∧
      (process_wait exitCodeOf interrupted st (-1) wnohang).2.child_list =
        pre ++ post) ∧
    (∀ (st2 : WaitState) (selfPid winPid handle pid2 : Nat)
        (st3 : WaitState),
      process_add_child st2 selfPid winPid handle = some (pid2, st3) →
      ∃ rec, st3.child_list = st2.child_list ++ [rec] ∧
        rec.terminated = false ∧ rec.pid = pid2 ∧ rec.hProcess = handle) := by
  constructor
  · obtain ⟨pre, c, post, hl, hpre, hc, hext⟩ :=
      extractFirst_first (fun p => p.terminated) st.child_list hterm
    have hblock : (!wnohang && interrupted) = false := by
      rcases hnoint with h1 | h1 <;> simp [h1]
    refine ⟨pre, c, post, hl, hpre, hc, ?_, ?_⟩
    · unfold process_wait
      simp [hcc, hblock, hext, finalizeReap]
    · unfold process_wait
      simp [hcc, hblock, hext, finalizeReap]
  · intro st2 selfPid winPid handle pid2 st3 h
    unfold process_add_child at h
    rcases hfree : st2.child_freelist with _ | ⟨f, freerest⟩ <;>
      rw [hfree] at h
    · exact absurd h (by simp)
    · rcases halloc : process_alloc st2.shared with _ | ⟨pid3, s1⟩ <;>
        rw [halloc] at h
      · exact absurd h (by simp)
      · simp only [Option.some_inj, Prod.mk.injEq] at h
        refine ⟨{ pid := pid3, hProcess := handle, terminated := false },
          ?_, rfl, ?_, rfl⟩
        · rw [← h.2]
        · rw [← h.1]

/-- Witness for C6: with one terminated child (pid 5) and `WNOHANG`, the
any-mode wait reaps it; and adding a child to the empty tracker appends it. -/
theorem process_wait_any_selects_first_terminated_witness :
    (∃ pre c post, oneDeadChildState.child_list = pre ++ c :: post ∧
      (∀ x ∈ pre, x.terminated = false) ∧ c.terminated = true ∧
      (process_wait (fun _ => 41) false oneDeadChildState (-1) true).1 =
        WaitResult.ok c.pid (W_EXITCODE ((fun _ => 41) c.hProcess) 0) ∧
      (process_wait (fun _ => 41) false oneDeadChildState (-1)
          true).2.child_list = pre ++ post) ∧
    (∀ (st2 : WaitState) (selfPid winPid handle pid2 : Nat)
        (st3 : WaitState),
      process_add_child st2 selfPid winPid handle = some (pid2, st3) →
      ∃ rec, st3.child_list = st2.child_list ++ [rec] ∧
        rec.terminated = false ∧ rec.pid = pid2 ∧ rec.hProcess = handle) :=
  process_wait_any_selects_first_terminated (fun _ => 41) false true
    oneDeadChildState (by decide) (Or.inl rfl) (by decide)

/-- Claim C7: every successful return of `process_wait` (either branch)
reaps one record `c` of the active child list: the returned pid is `c.pid`,
the status stored through a non-`NULL` status pointer is
`W_EXITCODE(exit code of c's native handle, 0)` — whose low byte is that
exit code — the shared process table is untouched (every `Running` slot,
including the reaped child's, stays `Running`), the record goes back to the
free list, and `child_count` drops by one. -/
theorem process_wait_reap (exitCodeOf : Nat → Nat)
    (interrupted wnohang : Bool) (st : WaitState) (pid : Int)
    (rpid encoded : Nat) (st2 : WaitState)
    (h : process_wait exitCodeOf interrupted st pid wnohang =
      (WaitResult.ok rpid encoded, st2)) :
    ∃ c ∈ st.child_list, rpid = c.pid ∧
      encoded = W_EXITCODE (exitCodeOf c.hProcess) 0 ∧
      encoded % 256 = exitCodeOf c.hProcess % 256 ∧
      st2.shared = st.shared ∧
      (∀ s, (st.shared.processes s).status = ProcStatus.Running →
        (st2.shared.processes s).status = ProcStatus.Running) ∧
      st2.child_freelist = st.child_freelist ++ [c] ∧
      st2.child_count = st.child_count - 1 := by
  unfold process_wait at h
  by_cases hpos : 0 < pid
  · simp only [hpos, if_true] at h
    rcases hext : extractFirst (fun p => p.pid == pid.toNat) st.child_list
        with _ | ⟨proc, rest⟩ <;> simp only [hext] at h
    · exact absurd h (by simp)
    · by_cases h1 : (wnohang && !proc.terminated) = true
      · rw [if_pos h1] at h
        exact absurd h (by simp)
      · rw [if_neg h1] at h
        by_cases h2 : (!wnohang && interrupted) = true
        · rw [if_pos h2] at h
          exact absurd h (by simp)
        · rw [if_neg h2] at h
          simp only [finalizeReap, Prod.mk.injEq, WaitResult.ok.injEq] at h
          refine ⟨proc, extractFirst_mem _ _ _ _ hext, h.1.1.symm,
            h.1.2.symm, ?_, ?_, ?_, ?_, ?_⟩
          · have he := h.1.2
            simp only [W_EXITCODE] at he ⊢
            omega
          · rw [← h.2]
          · intro s hs
            rw [← h.2]
            exact hs
          · rw [← h.2]
          · rw [← h.2]
  · simp only [hpos, if_false] at h
    by_cases hneg : pid = -1
    · simp only [hneg, if_true] at h
      by_cases hcc : st.child_count = 0
      · simp only [hcc, if_true] at h
        exact absurd h (by simp)
      · simp only [hcc, if_false] at h
        by_cases h2 : (!wnohang && interrupted) = true
        · rw [if_pos h2] at h
          exact absurd h (by simp)
        · rw [if_neg h2] at h
          rcases hext : extractFirst (fun p => p.terminated) st.child_list
              with _ | ⟨proc, rest⟩ <;> simp only [hext] at h
          · exact absurd h (by simp)
          · simp only [finalizeReap, Prod.mk.injEq,
              WaitResult.ok.injEq] at h
            refine ⟨proc, extractFirst_mem _ _ _ _ hext, h.1.1.symm,
              h.1.2.symm, ?_, ?_, ?_, ?_, ?_⟩
            · have he := h.1.2
              simp only [W_EXITCODE] at he ⊢
              omega
            · rw [← h.2]
            · intro s hs
              rw [← h.2]
              exact hs
            · rw [← h.2]
            · rw [← h.2]
    · simp only [hneg, if_false] at h
      exact absurd h (by simp)

/-- Witness for C7: a `WNOHANG` any-mode wait on a state with one terminated
child (pid 5, exit code 41) succeeds, and the reap theorem applies to it. -/
theorem process_wait_reap_witness :
    ∃ c ∈ oneDeadChildState.child_list, 5 = c.pid ∧
      W_EXITCODE 41 0 = W_EXITCODE ((fun _ => 41) c.hProcess) 0 ∧
      W_EXITCODE 41 0 % 256 = (fun _ => 41) c.hProcess % 256 ∧
      (process_wait (fun _ => 41) false oneDeadChildState (-1)
          true).2.shared = oneDeadChildState.shared ∧
      (∀ s, (oneDeadChildState.shared.processes s).status =
          ProcStatus.Running →
        ((process_wait (fun _ => 41) false oneDeadChildState (-1)
            true).2.shared.processes s).status = ProcStatus.Running) ∧
      (process_wait (fun _ => 41) false oneDeadChildState (-1)
          true).2.child_freelist =
        oneDeadChildState.child_freelist ++ [c] ∧
      (process_wait (fun _ => 41) false oneDeadChildState (-1)
          true).2.child_count = oneDeadChildState.child_count - 1 :=
  process_wait_reap (fun _ => 41) false true oneDeadChildState (-1) 5
    (W_EXITCODE 41 0)
    ((process_wait (fun _ => 41) false oneDeadChildState (-1) true).2)
    (by rfl)

/-- `process_get_ppid(pid)`: the C body reads
`process_shared->processes[process->pid].ppid`, i.e. the caller's own slot,
whatever `pid` was passed. -/
def process_get_ppid (sh : SharedData) (selfPid : Nat) (pid : Int) : Nat :=
  (sh.processes selfPid).ppid

/-- The skip-loop of `procfs_pid_iter`: `while (iter_tag < MAX_PROCESS_COUNT
&& processes[iter_tag].status == PROCESS_NOTEXIST) iter_tag++;` followed by
the end test and the report of the entry (`DT_DIR`, name the pid in decimal,
return value `iter_tag + 1`).  `none` models `VIRTUALFS_ITER_END`; the fuel
only bounds the structural recursion and `MAX_PROCESS_COUNT + 1` units cover
any start tag up to `MAX_PROCESS_COUNT`. -/
def pidIterFrom (sh : SharedData) : Nat → Nat → Option (String × Nat)
  | 0, _ => none
  | fuel + 1, tag =>
    if tag < MAX_PROCESS_COUNT then
      if (sh.processes tag).status = ProcStatus.NotExist then
        pidIterFrom sh fuel (tag + 1)
      else
        some (Nat.repr tag, tag + 1)
    else
      none

/-- `procfs_pid_iter(dir_tag, iter_tag, type, name, namelen)` (the `dir_tag`
and `*type = DT_DIR` outputs carry no table information and are omitted):
either the end marker or the reported entry name with the advanced cursor. -/
def procfs_pid_iter (sh : SharedData) (iter_tag : Nat) :
    Option (String × Nat) :=
  pidIterFrom sh (MAX_PROCESS_COUNT + 1) iter_tag

theorem pidIterFrom_spec (sh : SharedData) :
    ∀ fuel tag, MAX_PROCESS_COUNT < fuel + tag →
      (pidIterFrom sh fuel tag = none ↔
        ∀ j, tag ≤ j → j < MAX_PROCESS_COUNT →
          (sh.processes j).status = ProcStatus.NotExist) ∧
      (∀ name next, pidIterFrom sh fuel tag = some (name, next) →
        ∃ p, tag ≤ p ∧ p < MAX_PROCESS_COUNT ∧
          (sh.processes p).status = ProcStatus.Running ∧
          (∀ j, tag ≤ j → j < p →
            (sh.processes j).status = ProcStatus.NotExist) ∧
          name = Nat.repr p ∧ next = p + 1) := by
  intro fuel
  induction fuel with
  | zero =>
    intro tag hf
    refine ⟨⟨fun _ j hj1 hj2 => by omega, fun _ => rfl⟩, ?_⟩
    intro name next hsome
    exact absurd hsome (by simp [pidIterFrom])
  | succ fuel ih =>
    intro tag hf
    by_cases htag : tag < MAX_PROCESS_COUNT
    · by_cases hne : (sh.processes tag).status = ProcStatus.NotExist
      · have hrec := ih (tag + 1) (by omega)
        unfold pidIterFrom
        rw [if_pos htag, if_pos hne]
        constructor
        · rw [hrec.1]
          constructor
          · intro hall j hj1 hj2
            by_cases hjt : j = tag
            · exact hjt ▸ hne
            · exact hall j (by omega) hj2
          · intro hall j hj1 hj2
            exact hall j (by omega) hj2
        · intro name next hsome
          obtain ⟨p, hp1, hp2, hp3, hp4, hp5, hp6⟩ :=
            hrec.2 name next hsome
          refine ⟨p, by omega, hp2, hp3, ?_, hp5, hp6⟩
          intro j hj1 hj2
          by_cases hjt : j = tag
          · exact hjt ▸ hne
          · exact hp4 j (by omega) hj2
      · have hrun : (sh.processes tag).status = ProcStatus.Running := by
          cases hstat : (sh.processes tag).status
          · exact absurd hstat hne
          · rfl
        unfold pidIterFrom
        rw [if_pos htag, if_neg hne]
        constructor
        · constructor
          · intro hcontra
            exact absurd hcontra (by simp)
          · intro hall
            exact absurd (hall tag (Nat.le_refl tag) htag) hne
        · intro name next hsome
          simp only [Option.some_inj, Prod.mk.injEq] at hsome
          exact ⟨tag, Nat.le_refl tag, htag, hrun,
            fun j hj1 hj2 => by omega, hsome.1.symm, hsome.2.symm⟩
    · unfold pidIterFrom
      rw [if_neg htag]
      refine ⟨⟨fun _ j hj1 hj2 => by omega, fun _ => rfl⟩, ?_⟩
      intro name next hsome
      exact absurd hsome (by simp)

/-- Claim C9: for any cursor (at most `MAX_PROCESS_COUNT`) and any table
whose slot 0 is `NotExist`, the iteration step skips every `NotExist` slot:
it returns the end marker exactly when no `Running` slot at or after the
cursor exists, and otherwise reports the first `Running` slot `p` at or
after the cursor — never slot 0 — as a directory entry named by `p` in
decimal, returning the advanced cursor `p + 1`. -/
theorem procfs_pid_iter_spec (sh : SharedData) (tag : Nat)
    (h0 : (sh.processes 0).status = ProcStatus.NotExist)
    (htag : tag ≤ MAX_PROCESS_COUNT) :
    (procfs_pid_iter sh tag = none ↔
      ∀ j, tag ≤ j → j < MAX_PROCESS_COUNT →
        (sh.processes j).status = ProcStatus.NotExist) ∧
    (∀ name next, procfs_pid_iter sh tag = some (name, next) →
      ∃ p, tag ≤ p ∧ p < MAX_PROCESS_COUNT ∧ p ≠ 0 ∧
        (sh.processes p).status = ProcStatus.Running ∧
        (∀ j, tag ≤ j → j < p →
          (sh.processes j).status = ProcStatus.NotExist) ∧
        name = Nat.repr p ∧ next = p + 1) := by
  have h := pidIterFrom_spec sh (MAX_PROCESS_COUNT + 1) tag (by omega)
  refine ⟨h.1, ?_⟩
  intro name next hsome
  obtain ⟨p, hp1, hp2, hp3, hp4, hp5, hp6⟩ := h.2 name next hsome
  refine ⟨p, hp1, hp2, ?_, hp3, hp4, hp5, hp6⟩
  intro hpz
  have hcon : (sh.processes 0).status = ProcStatus.Running := hpz ▸ hp3
  rw [h0] at hcon
  exact ProcStatus.noConfusion hcon

/-- A table with exactly one live slot: slot 3 `Running` (a child of the
root), every other slot `NotExist`. -/
def demoIterShared : SharedData :=
  setSlot initialShared 3
    { status := ProcStatus.Running, win_pid := 123, pgid := 3, ppid := 1,
      sid := 3, sigwrite := none }

/-- Witness for C9: iterating `demoIterShared` from cursor 0 cannot hit the
end marker, and any reported entry is a nonzero `Running` pid in decimal
with the cursor advanced past it. -/
theorem procfs_pid_iter_spec_witness :
    (procfs_pid_iter demoIterShared 0 = none ↔
      ∀ j, 0 ≤ j → j < MAX_PROCESS_COUNT →
        (demoIterShared.processes j).status = ProcStatus.NotExist) ∧
    (∀ name next, procfs_pid_iter demoIterShared 0 = some (name, next) →
      ∃ p, 0 ≤ p ∧ p < MAX_PROCESS_COUNT ∧ p ≠ 0 ∧
        (demoIterShared.processes p).status = ProcStatus.Running ∧
        (∀ j, 0 ≤ j → j < p →
          (demoIterShared.processes j).status = ProcStatus.NotExist) ∧
        name = Nat.repr p ∧ next = p + 1) :=
  procfs_pid_iter_spec demoIterShared 0 (by rfl) (Nat.zero_le _)

/-- Claim C10: `process_get_ppid` ignores its pid argument entirely — for
any two arguments it returns the same value, namely the `ppid` field of the
calling process's own table slot. -/
theorem process_get_ppid_ignores_argument (sh : SharedData) (selfPid : Nat)
    (pid pid2 : Int) :
    process_get_ppid sh selfPid pid = (sh.processes selfPid).ppid ∧
    process_get_ppid sh selfPid pid = process_get_ppid sh selfPid pid2 :=
  ⟨rfl, rfl⟩
